import Mathlib

/-!
Verification of the transform layer of the `cupcake_mononoke` financial-data
ETL pipeline (`src/mononoke/pipeline/transform.py`), against its design
specification.

The development shallowly embeds the transform layer:

* `generate_hash_id` — the identity hasher (`Transform.generate_hash_id`),
  including a full model of `hashlib.md5` over the UTF-8 bytes of the basis
  string (state words are `Nat` reduced `% 2^32`).
* the field normalizer (`Transform._to_float`, modelled for the `None`/string
  inputs that occur in the pipeline, and the pandas date re-normalization
  `pd.to_datetime(...).dt.strftime("%Y-%m-%d")`, modelled on ISO-8601 dates).
* the per-domain transformers (`transform_stock`, `transform_forex`,
  `transform_crypto`, `transform_commodity`, `transform_exchange_rate`) as
  pure functions from typed payloads to `Except` of the rows they emit.
* the upsert merge engine (`Transform._upsert_csv`) as a list-of-rows
  operation `upsertRows` (concatenate old and new, drop duplicates on the
  key keeping the last occurrence).
* the financial-statement cleaning step of `transform_yahoo_financials`
  (threshold-based row dropping and column-mean imputation).
-/

namespace Mononoke

/-! ## MD5 (model of `hashlib.md5`)

`Transform.generate_hash_id` calls `hashlib.md5(basis.encode("utf-8")).hexdigest()`.
The following is a direct model of MD5 (RFC 1321): 32-bit words are naturals
kept below `2^32` by explicit `% 2^32`. -/

/-- `2^32`, the modulus for MD5's 32-bit words. -/
def w32 : Nat := 4294967296

/-- Rotate a 32-bit word (a `Nat` below `2^32`) left by `s` bits. -/
def rotl32 (x s : Nat) : Nat :=
  (x * 2 ^ s + x / 2 ^ (32 - s)) % w32

/-- Bitwise complement within 32 bits. -/
def not32 (x : Nat) : Nat := 4294967295 - x

/-- The 64 MD5 round constants `K[i] = floor(2^32 * |sin(i+1)|)`. -/
def md5K : List Nat :=
  [0xd76aa478, 0xe8c7b756, 0x242070db, 0xc1bdceee,
   0xf57c0faf, 0x4787c62a, 0xa8304613, 0xfd469501,
   0x698098d8, 0x8b44f7af, 0xffff5bb1, 0x895cd7be,
   0x6b901122, 0xfd987193, 0xa679438e, 0x49b40821,
   0xf61e2562, 0xc040b340, 0x265e5a51, 0xe9b6c7aa,
   0xd62f105d, 0x02441453, 0xd8a1e681, 0xe7d3fbc8,
   0x21e1cde6, 0xc33707d6, 0xf4d50d87, 0x455a14ed,
   0xa9e3e905, 0xfcefa3f8, 0x676f02d9, 0x8d2a4c8a,
   0xfffa3942, 0x8771f681, 0x6d9d6122, 0xfde5380c,
   0xa4beea44, 0x4bdecfa9, 0xf6bb4b60, 0xbebfbc70,
   0x289b7ec6, 0xeaa127fa, 0xd4ef3085, 0x04881d05,
   0xd9d4d039, 0xe6db99e5, 0x1fa27cf8, 0xc4ac5665,
   0xf4292244, 0x432aff97, 0xab9423a7, 0xfc93a039,
   0x655b59c3, 0x8f0ccc92, 0xffeff47d, 0x85845dd1,
   0x6fa87e4f, 0xfe2ce6e0, 0xa3014314, 0x4e0811a1,
   0xf7537e82, 0xbd3af235, 0x2ad7d2bb, 0xeb86d391]

/-- The 64 MD5 per-round left-rotation amounts. -/
def md5S : List Nat :=
  [7, 12, 17, 22, 7, 12, 17, 22, 7, 12, 17, 22, 7, 12, 17, 22,
   5, 9, 14, 20, 5, 9, 14, 20, 5, 9, 14, 20, 5, 9, 14, 20,
   4, 11, 16, 23, 4, 11, 16, 23, 4, 11, 16, 23, 4, 11, 16, 23,
   6, 10, 15, 21, 6, 10, 15, 21, 6, 10, 15, 21, 6, 10, 15, 21]

/-- One MD5 round `i` (0-63) on state `(a, b, c, d)` with message words `M`. -/
def md5Step (M : List Nat) (st : Nat × Nat × Nat × Nat) (i : Nat) :
    Nat × Nat × Nat × Nat :=
  let (a, b, c, d) := st
  let f :=
    if i < 16 then (b &&& c) ||| (not32 b &&& d)
    else if i < 32 then (d &&& b) ||| (not32 d &&& c)
    else if i < 48 then b ^^^ c ^^^ d
    else c ^^^ (b ||| not32 d)
  let g :=
    if i < 16 then i
    else if i < 32 then (5 * i + 1) % 16
    else if i < 48 then (3 * i + 5) % 16
    else (7 * i) % 16
  let f2 := (f + a + md5K.getD i 0 + M.getD g 0) % w32
  (d, (b + rotl32 f2 (md5S.getD i 0)) % w32, b, c)

/-- Process one 512-bit chunk (16 message words) of MD5. -/
def md5Chunk (st : Nat × Nat × Nat × Nat) (M : List Nat) :
    Nat × Nat × Nat × Nat :=
  let (a0, b0, c0, d0) := st
  let (a, b, c, d) := (List.range 64).foldl (md5Step M) st
  ((a0 + a) % w32, (b0 + b) % w32, (c0 + c) % w32, (d0 + d) % w32)

/-- The `k` least-significant bytes of `n`, little-endian. -/
def leBytes : Nat → Nat → List Nat
  | 0, _ => []
  | k + 1, n => (n % 256) :: leBytes k (n / 256)

/-- MD5 padding: a `0x80` byte, zeros to 56 mod 64, then the 64-bit
little-endian bit length of the original message. -/
def padMsg (msg : List Nat) : List Nat :=
  let r := msg.length % 64
  let z := if r < 56 then 55 - r else 119 - r
  msg ++ [0x80] ++ List.replicate z 0 ++ leBytes 8 ((8 * msg.length) % 2 ^ 64)

/-- Group bytes into little-endian 32-bit words. -/
def bytesToWords : List Nat → List Nat
  | b0 :: b1 :: b2 :: b3 :: rest =>
      (b0 + 256 * b1 + 65536 * b2 + 16777216 * b3) :: bytesToWords rest
  | _ => []

/-- Fuel-driven 16-word chunking (structural recursion so that concrete
hashes reduce inside the kernel). -/
def chunk16F : Nat → List Nat → List (List Nat)
  | 0, _ => []
  | _, [] => []
  | fuel + 1, a :: rest => ((a :: rest).take 16) :: chunk16F fuel ((a :: rest).drop 16)

/-- Split a word list into chunks of 16 words. -/
def chunk16 (l : List Nat) : List (List Nat) := chunk16F l.length l

/-- MD5 digest of a byte list: 16 output bytes. -/
def md5Bytes (msg : List Nat) : List Nat :=
  let chunks := chunk16 (bytesToWords (padMsg msg))
  let (a, b, c, d) := chunks.foldl md5Chunk (0x67452301, 0xefcdab89, 0x98badcfe, 0x10325476)
  leBytes 4 a ++ leBytes 4 b ++ leBytes 4 c ++ leBytes 4 d

/-- Lowercase hexadecimal rendering of a byte list, two characters per byte
(model of `.hexdigest()`). -/
def hexdigest (bytes : List Nat) : String :=
  ⟨(bytes.map fun b => [Nat.digitChar (b / 16 % 16), Nat.digitChar (b % 16)]).flatten⟩

/-- UTF-8 encoding of a single Unicode code point. -/
def utf8EncodeChar (c : Nat) : List Nat :=
  if c < 0x80 then [c]
  else if c < 0x800 then
    [0xC0 + c / 64, 0x80 + c % 64]
  else if c < 0x10000 then
    [0xE0 + c / 4096, 0x80 + c / 64 % 64, 0x80 + c % 64]
  else
    [0xF0 + c / 262144, 0x80 + c / 4096 % 64, 0x80 + c / 64 % 64, 0x80 + c % 64]

/-- UTF-8 bytes of a string (model of `str.encode("utf-8")`). -/
def utf8Bytes (s : String) : List Nat :=
  (s.data.map fun c => utf8EncodeChar c.toNat).flatten

/-- The basis string of `Transform.generate_hash_id`:
`f"{source}|{data_type}|" + "|".join(args)`. -/
def hashBasis (source data_type : String) (args : List String) : String :=
  source ++ "|" ++ data_type ++ "|" ++ String.intercalate "|" args

/-- `Transform.generate_hash_id` (transform.py lines 31-47): the hex MD5
digest of the UTF-8 bytes of the basis string. -/
def generate_hash_id (source data_type : String) (args : List String) : String :=
  hexdigest (md5Bytes (utf8Bytes (hashBasis source data_type args)))

/-! ### Digest-shape lemmas -/

theorem leBytes_length (k n : Nat) : (leBytes k n).length = k := by
  induction k generalizing n with
  | zero => rfl
  | succ k ih => simp [leBytes, ih]

theorem md5Bytes_length (msg : List Nat) : (md5Bytes msg).length = 16 := by
  unfold md5Bytes
  obtain ⟨a, b, c, d⟩ :=
    (chunk16 (bytesToWords (padMsg msg))).foldl md5Chunk
      (0x67452301, 0xefcdab89, 0x98badcfe, 0x10325476)
  simp [leBytes_length]

theorem hexdigest_length (bytes : List Nat) :
    (hexdigest bytes).length = 2 * bytes.length := by
  induction bytes with
  | nil => rfl
  | cons b rest ih =>
      simp only [hexdigest, String.length] at ih ⊢
      simp [List.flatten, ih]
      ring

/-- C1. The identity hash is a pure, deterministic function of its inputs:
`generate_hash_id` builds the basis by joining `source`, `data_type`, and the
discriminators with `"|"` in argument order, applies the fixed-width 128-bit
MD5 digest to its UTF-8 bytes, and returns the 32-character hexadecimal form;
equal inputs (equal bases) always give equal IDs. -/
theorem hash_id_basis_digest_deterministic :
    (∀ source data_type args,
        generate_hash_id source data_type args =
          hexdigest (md5Bytes (utf8Bytes
            (source ++ "|" ++ data_type ++ "|" ++ String.intercalate "|" args))))
    ∧ (∀ source data_type args,
        (generate_hash_id source data_type args).length = 32)
    ∧ (∀ s₁ d₁ a₁ s₂ d₂ a₂, hashBasis s₁ d₁ a₁ = hashBasis s₂ d₂ a₂ →
        generate_hash_id s₁ d₁ a₁ = generate_hash_id s₂ d₂ a₂) := by
  refine ⟨fun _ _ _ => rfl, fun source data_type args => ?_, ?_⟩
  · rw [generate_hash_id, hexdigest_length, md5Bytes_length]
  · intro s₁ d₁ a₁ s₂ d₂ a₂ h
    unfold generate_hash_id
    rw [h]

/-- C1 witness: the determinism clause applied at concrete inputs, and the
length clause checked on a concrete hash. -/
theorem hash_id_basis_digest_deterministic_witness :
    generate_hash_id "Alpha Vantage" "stock" ["IBM"] =
      generate_hash_id "Alpha Vantage" "stock" ["IBM"]
    ∧ (generate_hash_id "Alpha Vantage" "stock" ["IBM"]).length = 32 :=
  ⟨hash_id_basis_digest_deterministic.2.2 "Alpha Vantage" "stock" ["IBM"]
      "Alpha Vantage" "stock" ["IBM"] rfl,
   hash_id_basis_digest_deterministic.2.1 "Alpha Vantage" "stock" ["IBM"]⟩

/-! ## Field normalizer

`Transform._to_float` (transform.py lines 152-166) is
`float(value) if value is not None else None`, returning `None` and logging a
warning when `float` raises. In the pipeline the values reaching it are either
`None` (absent JSON field) or JSON strings, so it is modelled on
`Option String`. Python's `float` on strings is modelled for plain decimal
literals (optional sign, digits, optional fractional dot), which covers every
numeric payload this pipeline handles; non-literals (e.g. `"."`) fail. -/

/-- The exact rational value of a coerced numeric field, as an (unreduced)
numerator/denominator pair. Python's `float` holds an IEEE double; the
pipeline never branches on numeric equality or performs lossy arithmetic the
claims depend on, so exact rationals model the values faithfully. -/
structure PyNum where
  num : Int
  den : Nat
deriving DecidableEq, Repr

/-- Rational addition on value pairs (used only for pandas column means). -/
def pvAdd (x y : PyNum) : PyNum := ⟨x.num * y.den + y.num * x.den, x.den * y.den⟩

/-- Division of a value pair by a natural number (for pandas column means). -/
def pvDivNat (x : PyNum) (n : Nat) : PyNum := ⟨x.num, x.den * n⟩

/-- Numeric value of a digit-character list. -/
def digitsVal (l : List Char) : Nat :=
  l.foldl (fun a c => 10 * a + (c.toNat - 48)) 0

/-- Surrounding-whitespace strip (Python `float` accepts padded literals). -/
def pyTrim (l : List Char) : List Char :=
  ((l.dropWhile Char.isWhitespace).reverse.dropWhile Char.isWhitespace).reverse

/-- Model of Python `float(s)` on decimal string literals: `some` rational on
success, `none` when `float` would raise `ValueError`. -/
def parseFloat (s : String) : Option PyNum :=
  let t := pyTrim s.data
  let (sg, rest) : Int × List Char :=
    match t with
    | '-' :: r => (-1, r)
    | '+' :: r => (1, r)
    | r => (1, r)
  let ip := rest.takeWhile (fun c => c != '.')
  let residue := rest.dropWhile (fun c => c != '.')
  match residue with
  | [] =>
      if ip ≠ [] ∧ ip.all Char.isDigit then some ⟨sg * digitsVal ip, 1⟩ else none
  | '.' :: frac =>
      if (ip ++ frac) ≠ [] ∧ (ip ++ frac).all Char.isDigit then
        some ⟨sg * (digitsVal ip * 10 ^ frac.length + digitsVal frac), 10 ^ frac.length⟩
      else none
  | _ => none

/-- `Transform._to_float` on the `None`/string values that occur in payloads.
Returns the coerced value and whether a numeric-coercion warning was logged
(a warning is logged exactly when `float` raises; `None` input is passed
through silently). -/
def to_float (v : Option String) : Option PyNum × Bool :=
  match v with
  | none => (none, false)
  | some s =>
      match parseFloat s with
      | some q => (some q, false)
      | none => (none, true)

/-- Python `str(value)` on the `None`/string values that occur in payloads
(used by the commodity placeholder guard `str(row.get('value')) != "."`). -/
def pyStr (v : Option String) : String :=
  match v with
  | none => "None"
  | some s => s

/-- Python's `x or y` on optional strings: `x` when it is a non-empty string,
otherwise `y` (both `None` and `""` are falsy). -/
def pyOr (x y : Option String) : Option String :=
  match x with
  | some s => if s = "" then y else some s
  | none => y

/-- `dict.get(k)` on a string-valued JSON object (association list with the
first binding of a key authoritative, as in a Python dict). -/
def lookupStr (d : List (String × String)) (k : String) : Option String :=
  (d.find? fun p => p.1 = k).map (fun p => p.2)

/-- Days in a month (with the Gregorian leap rule), for date validation. -/
def daysInMonth (y m : Nat) : Nat :=
  if m = 2 then
    if y % 4 = 0 ∧ (y % 100 ≠ 0 ∨ y % 400 = 0) then 29 else 28
  else if m = 4 ∨ m = 6 ∨ m = 9 ∨ m = 11 then 30
  else 31

/-- Model of `pd.to_datetime(s).strftime("%Y-%m-%d")` on the canonical
ISO-8601 dates this pipeline's providers emit: a valid `YYYY-MM-DD` string is
re-emitted unchanged, anything else makes `pd.to_datetime` raise (`none`). -/
def to_iso_date (s : String) : Option String :=
  match s.toList with
  | [y1, y2, y3, y4, '-', m1, m2, '-', d1, d2] =>
      if y1.isDigit ∧ y2.isDigit ∧ y3.isDigit ∧ y4.isDigit ∧
         m1.isDigit ∧ m2.isDigit ∧ d1.isDigit ∧ d2.isDigit then
        let y := digitsVal [y1, y2, y3, y4]
        let m := digitsVal [m1, m2]
        let d := digitsVal [d1, d2]
        if 1 ≤ m ∧ m ≤ 12 ∧ 1 ≤ d ∧ d ≤ daysInMonth y m then some s else none
      else none
  | _ => none

/-! ## Upsert merge engine

`Transform._upsert_csv` (transform.py lines 79-102): if the target CSV does
not exist the new rows are written verbatim; otherwise the old rows are
loaded, old and new are concatenated, and duplicates on the key columns are
dropped keeping the last occurrence. A store is modelled as a list of rows
(`none` = the file does not exist); the key columns are modelled by a key
projection. The defensive date re-normalization of the loaded rows is the
identity on the canonical `YYYY-MM-DD` dates every store in this pipeline is
written with, so it does not appear in the model. -/

/-- `pandas.DataFrame.drop_duplicates(subset=key, keep="last")`: keep, in
order, exactly those rows whose key does not occur again later. -/
def dropDupKeepLast {α κ : Type} [DecidableEq κ] (key : α → κ) : List α → List α
  | [] => []
  | r :: rest =>
      if rest.any (fun s => key s = key r) then dropDupKeepLast key rest
      else r :: dropDupKeepLast key rest

/-- `Transform._upsert_csv` on a store state: `none` means the CSV does not
exist (new rows become the store verbatim); otherwise concatenate and
deduplicate keep-last on the key. -/
def upsertRows {α κ : Type} [DecidableEq κ] (key : α → κ)
    (store : Option (List α)) (new : List α) : List α :=
  match store with
  | none => new
  | some prev => dropDupKeepLast key (prev ++ new)

/-! ## Per-domain transformers

Each transformer is embedded as a pure function from a typed payload
(mirroring the provider JSON shape consumed by the Python code) to an
`Except` of the rows it hands to `_upsert_csv`: the instrument/meta row and
the timeseries rows. An `Except.error` models a raised exception, after which
the Python function performs no `_upsert_csv` call — the store state is
unchanged. -/

/-- Exceptions a transformer can raise. -/
inductive TErr where
  /-- `ValueError` for an absent required container block. -/
  | missingBlock (msg : String)
  /-- `TypeError` from `"|".join` / `+` applied to a `None` symbol. -/
  | typeErr
  /-- `ValueError` from `pd.to_datetime` on an unparsable date. -/
  | badDate (s : String)
deriving DecidableEq, Repr

/-- A daily OHLCV entry as it appears in the provider JSON
(`"1. open"` … `"5. volume"`, each field possibly absent). -/
structure OhlcvEntry where
  op : Option String
  hi : Option String
  lo : Option String
  cl : Option String
  vol : Option String
deriving DecidableEq, Repr

/-- A stock/crypto timeseries row (columns of the timeseries DataFrame). -/
structure TsRow where
  instrument_id : String
  date : String
  op : Option PyNum
  hi : Option PyNum
  lo : Option PyNum
  cl : Option PyNum
  vol : Option PyNum
deriving DecidableEq, Repr

/-- One loop iteration of the stock/crypto timeseries fan-out. -/
def mkTsRow (h : String) (kv : String × OhlcvEntry) : TsRow :=
  { instrument_id := h, date := kv.1,
    op := (to_float kv.2.op).1, hi := (to_float kv.2.hi).1,
    lo := (to_float kv.2.lo).1, cl := (to_float kv.2.cl).1,
    vol := (to_float kv.2.vol).1 }

/-- `pd.to_datetime(df['date']).dt.strftime('%Y-%m-%d')` over the date
column: every date must parse or the whole call raises. -/
def normDatesTs : List TsRow → Except TErr (List TsRow)
  | [] => .ok []
  | r :: rest =>
      match to_iso_date r.date with
      | none => .error (.badDate r.date)
      | some d => (normDatesTs rest).map (fun l => { r with date := d } :: l)

/-- The `dropna` subset check of `transform_stock`
(`['instrument_id', 'date', 'open', 'high', 'low', 'close', 'volume']`;
`instrument_id` and `date` are non-null strings by construction). -/
def tsAllPresent (r : TsRow) : Bool :=
  r.op.isSome && r.hi.isSome && r.lo.isSome && r.cl.isSome && r.vol.isSome

/-- Raw stock payload: the two top-level blocks, each possibly absent. -/
structure StockRaw where
  metaData : Option (List (String × String))
  timeSeries : Option (List (String × OhlcvEntry))

/-- The stock instruments row. -/
structure StockMetaRow where
  instrument_id : String
  source : String
  data_type : String
  symbol : String
  last_updated : Option String
deriving DecidableEq, Repr

/-- `Transform.transform_stock` (transform.py lines 320-374), up to the
`_upsert_csv` calls. -/
def transform_stock (raw : StockRaw) : Except TErr (StockMetaRow × List TsRow) :=
  match raw.metaData, raw.timeSeries with
  | some md, some tsd =>
      let last_updated := lookupStr md "3. Last Refreshed"
      match lookupStr md "2. Symbol" with
      | none => .error .typeErr
      | some symbol =>
          let hashing := generate_hash_id "Alpha Vantage" "stock" [symbol]
          let meta : StockMetaRow :=
            { instrument_id := hashing, source := "Alpha Vantage",
              data_type := "stock", symbol := symbol, last_updated := last_updated }
          let ts := tsd.map (mkTsRow hashing)
          if ts.isEmpty then .ok (meta, ts)
          else (normDatesTs ts).map fun ts1 => (meta, ts1.filter tsAllPresent)
  | _, _ => .error (.missingBlock "Missing required data blocks in raw data")

/-- Raw crypto payload: the two top-level blocks, each possibly absent. -/
structure CryptoRaw where
  metaData : Option (List (String × String))
  timeSeries : Option (List (String × OhlcvEntry))

/-- The cryptocurrency instruments row. -/
structure CryptoMetaRow where
  instrument_id : String
  source : String
  data_type : String
  currency_code : Option String
  market_code : Option String
  last_updated : Option String
deriving DecidableEq, Repr

/-- The `or`-fallback for the crypto currency code
(`metadata.get("2. Digital Currency Code") or metadata.get("3. Digital Currency Name")`). -/
def cryptoCurrencyCode (md : List (String × String)) : Option String :=
  pyOr (lookupStr md "2. Digital Currency Code")
    (lookupStr md "3. Digital Currency Name")

/-- `Transform.transform_crypto` (transform.py lines 170-224), up to the
`_upsert_csv` calls. Note: the blocks are read with `.get(..., {})` defaults
and never validated, and the timeseries rows are not `dropna`-filtered. -/
def transform_crypto (raw : CryptoRaw) : Except TErr (CryptoMetaRow × List TsRow) :=
  let md := raw.metaData.getD []
  let tsd := raw.timeSeries.getD []
  let currency_code := cryptoCurrencyCode md
  let market_code := lookupStr md "4. Market Code"
  let last_updated := lookupStr md "6. Last Refreshed"
  let hashing := generate_hash_id "Alpha Vantage" "cryptocurrency"
    [currency_code.getD "", market_code.getD ""]
  let meta : CryptoMetaRow :=
    { instrument_id := hashing, source := "Alpha Vantage",
      data_type := "cryptocurrency", currency_code := currency_code,
      market_code := market_code, last_updated := last_updated }
  let ts := tsd.map (mkTsRow hashing)
  if ts.isEmpty then .ok (meta, ts)
  else (normDatesTs ts).map fun ts1 => (meta, ts1)

/-- A daily FX entry (`"1. open"` … `"4. close"`). -/
structure FxEntry where
  op : Option String
  hi : Option String
  lo : Option String
  cl : Option String
deriving DecidableEq, Repr

/-- A forex timeseries row. -/
structure FxTsRow where
  instrument_id : String
  date : String
  op : Option PyNum
  hi : Option PyNum
  lo : Option PyNum
  cl : Option PyNum
deriving DecidableEq, Repr

/-- One loop iteration of the forex timeseries fan-out. -/
def mkFxRow (h : String) (kv : String × FxEntry) : FxTsRow :=
  { instrument_id := h, date := kv.1,
    op := (to_float kv.2.op).1, hi := (to_float kv.2.hi).1,
    lo := (to_float kv.2.lo).1, cl := (to_float kv.2.cl).1 }

/-- Date-column normalization for forex rows. -/
def normDatesFx : List FxTsRow → Except TErr (List FxTsRow)
  | [] => .ok []
  | r :: rest =>
      match to_iso_date r.date with
      | none => .error (.badDate r.date)
      | some d => (normDatesFx rest).map (fun l => { r with date := d } :: l)

/-- The forex `dropna` subset check
(`['instrument_id', 'date', 'open', 'high', 'low', 'close']`). -/
def fxAllPresent (r : FxTsRow) : Bool :=
  r.op.isSome && r.hi.isSome && r.lo.isSome && r.cl.isSome

/-- Raw forex payload. -/
structure ForexRaw where
  metaData : Option (List (String × String))
  timeSeries : Option (List (String × FxEntry))

/-- The forex instruments row. -/
structure FxMetaRow where
  instrument_id : String
  source : String
  data_type : String
  symbol : String
  last_updated : Option String
deriving DecidableEq, Repr

/-- `Transform.transform_forex` (transform.py lines 376-429), up to the
`_upsert_csv` calls. -/
def transform_forex (raw : ForexRaw) : Except TErr (FxMetaRow × List FxTsRow) :=
  match raw.metaData, raw.timeSeries with
  | some md, some tsd =>
      match lookupStr md "2. From Symbol", lookupStr md "3. To Symbol" with
      | some f, some t =>
          let symbol := f ++ "_" ++ t
          let last_updated := lookupStr md "5. Last Refreshed"
          let hashing := generate_hash_id "Alpha Vantage" "forex" [symbol]
          let meta : FxMetaRow :=
            { instrument_id := hashing, source := "Alpha Vantage",
              data_type := "forex", symbol := symbol, last_updated := last_updated }
          let ts := tsd.map (mkFxRow hashing)
          if ts.isEmpty then .ok (meta, ts)
          else (normDatesFx ts).map fun ts1 => (meta, ts1.filter fxAllPresent)
      | _, _ => .error .typeErr
  | _, _ => .error (.missingBlock "Missing required data blocks in raw data")

/-- One element of a commodity payload's `data` list. -/
structure CPoint where
  date : Option String
  value : Option String
deriving DecidableEq, Repr

/-- Raw commodity payload (`name`, `unit`, `data`, each possibly absent). -/
structure CommodityRaw where
  name : Option String
  unit : Option String
  data : Option (List CPoint)

/-- The commodity instruments row. -/
structure CMetaRow where
  instrument_id : String
  source : String
  data_type : String
  info : String
  unit : String
deriving DecidableEq, Repr

/-- A commodity timeseries row (the date can be null before `dropna`). -/
structure CTsRow where
  instrument_id : String
  date : Option String
  price : Option PyNum
deriving DecidableEq, Repr

/-- The commodity price coercion with its placeholder special case
(`self._to_float(row.get('value')) if str(row.get('value')) != "." else None`,
transform.py line 255): the value and whether a coercion warning was logged. -/
def commodityPrice (v : Option String) : Option PyNum × Bool :=
  if pyStr v = "." then (none, false) else to_float v

/-- One loop iteration of the commodity fan-out (transform.py lines 254-261):
the row and whether a numeric-coercion warning was logged for it. -/
def mkCPoint (h : String) (p : CPoint) : CTsRow × Bool :=
  ({ instrument_id := h, date := p.date, price := (commodityPrice p.value).1 },
   (commodityPrice p.value).2)

/-- Date-column normalization for commodity rows: a null date becomes `NaT`
(kept as null, later removed by `dropna`); an unparsable string raises. -/
def normDatesC : List CTsRow → Except TErr (List CTsRow)
  | [] => .ok []
  | r :: rest =>
      match r.date with
      | none => (normDatesC rest).map (fun l => r :: l)
      | some s =>
          match to_iso_date s with
          | none => .error (.badDate s)
          | some d => (normDatesC rest).map (fun l => { r with date := some d } :: l)

/-- `Transform.transform_commodity` (transform.py lines 226-277), up to the
`_upsert_csv` calls. The blocks are read with `.get` defaults and never
validated. -/
def transform_commodity (raw : CommodityRaw) :
    Except TErr (CMetaRow × List CTsRow) :=
  let tsd := raw.data.getD []
  let info := raw.name.getD ""
  let unit := raw.unit.getD ""
  let hashing := generate_hash_id "Alpha Vantage" "commodity" [info]
  let meta : CMetaRow :=
    { instrument_id := hashing, source := "Alpha Vantage",
      data_type := "commodity", info := info, unit := unit }
  let ts := tsd.map fun p => (mkCPoint hashing p).1
  if ts.isEmpty then .ok (meta, ts)
  else (normDatesC ts).map fun ts1 =>
    (meta, ts1.filter fun r => r.date.isSome && r.price.isSome)

/-- The single exchange-rate row. -/
structure XRow where
  instrument_id : String
  source : String
  data_type : String
  from_currency_code : String
  to_currency_code : String
  exchange_rate : Option PyNum
  last_refreshed : Option String
  bid_price : Option PyNum
  ask_price : Option PyNum
deriving DecidableEq, Repr

/-- `Transform.transform_exchange_rate` (transform.py lines 279-318), up to
the `_upsert_csv` call. The argument is
`raw_data.get('Realtime Currency Exchange Rate', None)`. -/
def transform_exchange_rate (block? : Option (List (String × String))) :
    Except TErr XRow :=
  match block? with
  | none =>
      .error (.missingBlock "Missing 'Realtime Currency Exchange Rate' block in raw data")
  | some block =>
      .ok { instrument_id := generate_hash_id "Alpha Vantage" "exchange_rate"
              [(lookupStr block "1. From_Currency Code").getD "",
               (lookupStr block "3. To_Currency Code").getD ""],
            source := "Alpha Vantage", data_type := "exchange_rate",
            from_currency_code := (lookupStr block "1. From_Currency Code").getD "",
            to_currency_code := (lookupStr block "3. To_Currency Code").getD "",
            exchange_rate := (to_float (lookupStr block "5. Exchange Rate")).1,
            last_refreshed := lookupStr block "6. Last Refreshed",
            bid_price := (to_float (lookupStr block "8. Bid Price")).1,
            ask_price := (to_float (lookupStr block "9. Ask Price")).1 }

/-! ## Financial-statement cleaning

The dropping/imputation step of `Transform.transform_yahoo_financials`
(transform.py lines 536-551). A statement row is modelled by its `date` plus
its line-item cells; the `instrument_id`, `symbol` and `date` columns are
non-null strings, so a DataFrame with `w` line-item columns has `w + 3`
columns and every row has 3 guaranteed non-null cells. -/

/-- A financial-statement row: the date plus the `w` line-item cells. -/
structure FinRow where
  date : String
  items : List (Option PyNum)
deriving DecidableEq, Repr

/-- Number of non-null cells in a cell list. -/
def countSome (l : List (Option PyNum)) : Nat := (l.filter Option.isSome).length

/-- `int(len(fin_df.columns) * 0.4)`: the `dropna` threshold. Python computes
this in floating point; for the column counts arising here it equals
`⌊2 * ncols / 5⌋`. -/
def finThresh (ncols : Nat) : Nat := 2 * ncols / 5

/-- The `dropna(thresh=...)` row predicate: keep a row iff its number of
non-null cells (3 id/date cells plus the non-null line items) reaches the
threshold. -/
def finKeep (w : Nat) (r : FinRow) : Bool :=
  decide (finThresh (w + 3) ≤ 3 + countSome r.items)

/-- The non-null values of line-item column `j` over a batch. -/
def colVals (rows : List FinRow) (j : Nat) : List PyNum :=
  rows.filterMap fun r => r.items.getD j none

/-- `fin_df.mean(numeric_only=True)` for column `j`: the mean of the non-null
values, or null when there are none. -/
def colMean (rows : List FinRow) (j : Nat) : Option PyNum :=
  let vs := colVals rows j
  if vs.isEmpty then none else some (pvDivNat (vs.foldl pvAdd ⟨0, 1⟩) vs.length)

/-- `fillna`: a present cell is kept, a null cell takes the column mean. -/
def orFill (it m : Option PyNum) : Option PyNum :=
  match it with
  | some v => some v
  | none => m

/-- The column means of the surviving rows of a batch. -/
def finMeans (w : Nat) (batch : List FinRow) : List (Option PyNum) :=
  (List.range w).map (colMean (batch.filter (finKeep w)))

/-- A surviving row after `fillna`: present cells kept, gaps take the column
mean computed over the surviving rows of the batch. -/
def finFill (w : Nat) (batch : List FinRow) (r : FinRow) : FinRow :=
  { r with items := List.zipWith orFill r.items (finMeans w batch) }

/-- Lines 543-545 of `transform_yahoo_financials`: drop rows below the
`dropna` threshold, then fill remaining numeric gaps with the column means
computed over the surviving rows. -/
def finClean (w : Nat) (batch : List FinRow) : List FinRow :=
  let kept := batch.filter (finKeep w)
  let means := (List.range w).map (colMean kept)
  kept.map fun r => { r with items := List.zipWith orFill r.items means }

/-! ## Merge-engine lemmas -/

theorem ddl_sublist {α κ : Type} [DecidableEq κ] (key : α → κ) (l : List α) :
    List.Sublist (dropDupKeepLast key l) l := by
  induction l with
  | nil => simp [dropDupKeepLast]
  | cons r rest ih =>
      simp only [dropDupKeepLast]
      split
      · exact ih.cons r
      · exact ih.cons₂ r

theorem ddl_subset {α κ : Type} [DecidableEq κ] (key : α → κ) (l : List α) :
    ∀ r ∈ dropDupKeepLast key l, r ∈ l :=
  fun _ hr => (ddl_sublist key l).subset hr

theorem ddl_keys_nodup {α κ : Type} [DecidableEq κ] (key : α → κ) (l : List α) :
    ((dropDupKeepLast key l).map key).Nodup := by
  induction l with
  | nil => simp [dropDupKeepLast]
  | cons r rest ih =>
      simp only [dropDupKeepLast]
      split
      · exact ih
      · rename_i h
        simp only [List.map_cons, List.nodup_cons]
        refine ⟨fun hmem => ?_, ih⟩
        obtain ⟨s, hs, hks⟩ := List.mem_map.mp hmem
        exact h (List.any_eq_true.mpr
          ⟨s, ddl_subset key rest s hs, by simp [hks]⟩)

theorem ddl_append {α κ : Type} [DecidableEq κ] (key : α → κ) (l₁ l₂ : List α) :
    dropDupKeepLast key (l₁ ++ l₂) =
      ((dropDupKeepLast key l₁).filter fun r => !(l₂.any fun s => key s = key r))
        ++ dropDupKeepLast key l₂ := by
  induction l₁ with
  | nil => simp [dropDupKeepLast]
  | cons a t ih =>
      simp only [List.cons_append, dropDupKeepLast, List.any_append]
      by_cases h1 : (t.any fun s => key s = key a) = true
      · simp [h1, ih]
      · by_cases h2 : (l₂.any fun s => key s = key a) = true
        · simp [h1, h2, ih, List.filter_cons]
        · simp [h1, h2, ih, List.filter_cons]

theorem ddl_of_keys_nodup {α κ : Type} [DecidableEq κ] (key : α → κ)
    (l : List α) (h : (l.map key).Nodup) : dropDupKeepLast key l = l := by
  induction l with
  | nil => rfl
  | cons r rest ih =>
      simp only [List.map_cons, List.nodup_cons] at h
      obtain ⟨hr, hrest⟩ := h
      have hany : (rest.any fun s => key s = key r) = false := by
        rw [List.any_eq_false]
        intro s hs hks
        simp only [decide_eq_true_eq] at hks
        exact hr (List.mem_map.mpr ⟨s, hs, hks⟩)
      simp [dropDupKeepLast, hany, ih hrest]

theorem mem_ddl_iff {α κ : Type} [DecidableEq κ] (key : α → κ) (l : List α)
    (r : α) :
    r ∈ dropDupKeepLast key l ↔
      ∃ l₁ l₂, l = l₁ ++ r :: l₂ ∧ ∀ s ∈ l₂, key s ≠ key r := by
  constructor
  · induction l with
    | nil => intro hmem; simp [dropDupKeepLast] at hmem
    | cons a t ih =>
        intro hmem
        simp only [dropDupKeepLast] at hmem
        by_cases h : (t.any fun s => key s = key a) = true
        · rw [if_pos h] at hmem
          obtain ⟨l₁, l₂, heq, hl₂⟩ := ih hmem
          exact ⟨a :: l₁, l₂, by simp [heq], hl₂⟩
        · rw [if_neg h] at hmem
          rcases List.mem_cons.mp hmem with rfl | hmem'
          · refine ⟨[], t, rfl, fun s hs hks => ?_⟩
            exact h (List.any_eq_true.mpr ⟨s, hs, by simp [hks]⟩)
          · obtain ⟨l₁, l₂, heq, hl₂⟩ := ih hmem'
            exact ⟨a :: l₁, l₂, by simp [heq], hl₂⟩
  · rintro ⟨l₁, l₂, rfl, hl₂⟩
    induction l₁ with
    | nil =>
        have hany : (l₂.any fun s => key s = key r) = false := by
          rw [List.any_eq_false]
          intro s hs hks
          simp only [decide_eq_true_eq] at hks
          exact hl₂ s hs hks
        simp [dropDupKeepLast, hany]
    | cons a t ih =>
        simp only [List.cons_append, dropDupKeepLast]
        split
        · exact ih
        · exact List.mem_cons_of_mem a ih

theorem exists_last_with_key {α κ : Type} [DecidableEq κ] (key : α → κ)
    (l : List α) (k : κ) (h : ∃ r ∈ l, key r = k) :
    ∃ l₁ x l₂, l = l₁ ++ x :: l₂ ∧ key x = k ∧ ∀ s ∈ l₂, key s ≠ k := by
  induction l with
  | nil => simp at h
  | cons a t ih =>
      by_cases ht : ∃ r ∈ t, key r = k
      · obtain ⟨l₁, x, l₂, heq, hx, hl₂⟩ := ih ht
        exact ⟨a :: l₁, x, l₂, by simp [heq], hx, hl₂⟩
      · have ha : key a = k := by
          obtain ⟨r, hr, hkr⟩ := h
          rcases List.mem_cons.mp hr with rfl | hr'
          · exact hkr
          · exact absurd ⟨r, hr', hkr⟩ ht
        exact ⟨[], a, t, rfl, ha, fun s hs hks => ht ⟨s, hs, hks⟩⟩

/-- C2. Upsert precedence: merging a batch into an existing store that holds
`(K, V1)`, where the batch's rows for key `K` carry the value `V2` (≠ `V1`),
yields a store that contains `(K, V2)` and no longer contains `(K, V1)` —
new rows win over old rows with the same key. -/
theorem upsert_new_rows_win {κ υ : Type} [DecidableEq κ] [DecidableEq υ]
    (prev batch : List (κ × υ)) (K : κ) (V1 V2 : υ)
    (hprev : (K, V1) ∈ prev) (hbatch : (K, V2) ∈ batch)
    (hbatchK : ∀ p ∈ batch, p.1 = K → p.2 = V2) (hne : V1 ≠ V2) :
    (K, V2) ∈ upsertRows Prod.fst (some prev) batch ∧
      (K, V1) ∉ upsertRows Prod.fst (some prev) batch := by
  have hmem2 : (K, V2) ∈ upsertRows Prod.fst (some prev) batch := by
    obtain ⟨b₁, x, b₂, heq, hx, hb₂⟩ :=
      exists_last_with_key Prod.fst batch K ⟨(K, V2), hbatch, rfl⟩
    have hxmem : x ∈ batch := by rw [heq]; simp
    have hxval : x = (K, V2) := by
      obtain ⟨x1, x2⟩ := x
      have := hbatchK (x1, x2) hxmem hx
      simp only at hx this
      rw [hx, this]
    subst hxval
    show (K, V2) ∈ dropDupKeepLast Prod.fst (prev ++ batch)
    rw [mem_ddl_iff]
    exact ⟨prev ++ b₁, b₂, by simp [heq], hb₂⟩
  refine ⟨hmem2, fun hmem1 => ?_⟩
  have hnodup := ddl_keys_nodup Prod.fst (prev ++ batch)
  have := List.inj_on_of_nodup_map hnodup hmem1 hmem2 rfl
  exact hne (congrArg Prod.snd this)

/-- C2 witness: the precedence theorem applied at a concrete store and batch. -/
theorem upsert_new_rows_win_witness :
    ("K", 2) ∈ upsertRows Prod.fst (some [("K", 1)]) [("K", 2)] ∧
      ("K", 1) ∉ upsertRows Prod.fst (some [("K", 1)]) [("K", 2)] :=
  upsert_new_rows_win [("K", 1)] [("K", 2)] "K" 1 2 (by decide) (by decide)
    (by decide) (by decide)

/-- C3 counterexample: merging the batch `[("k", 1), ("k", 2)]` into a
non-existent store writes it verbatim (duplicate keys included), and merging
the same batch a second time collapses the duplicate — so merging twice is
not the same as merging once, refuting the claim for the store-absent case it
explicitly includes. -/
theorem merge_idempotence_cex :
    upsertRows Prod.fst
        (some (upsertRows Prod.fst (none : Option (List (String × Nat)))
          [("k", 1), ("k", 2)]))
        [("k", 1), ("k", 2)] ≠
      upsertRows Prod.fst (none : Option (List (String × Nat)))
        [("k", 1), ("k", 2)] := by decide

/-- C3 amended: merging a batch twice yields a store identical to merging it
once, with no duplicate keys and hence the same row count, provided the batch
has no duplicate keys whenever the store does not yet exist (when the store
exists this holds for every batch; when it does not, the batch is written
verbatim, so its own duplicates survive a single merge). -/
theorem merge_idempotent_amended {α κ : Type} [DecidableEq κ] (key : α → κ)
    (store : Option (List α)) (batch : List α)
    (h : store = none → (batch.map key).Nodup) :
    upsertRows key (some (upsertRows key store batch)) batch =
        upsertRows key store batch
    ∧ ((upsertRows key store batch).map key).Nodup := by
  have hfilter_mem : ∀ l : List α, (∀ r ∈ l, r ∈ batch) →
      (l.filter fun r => !(batch.any fun s => key s = key r)) = [] := by
    intro l hl
    rw [List.filter_eq_nil_iff]
    intro r hr
    simp only [Bool.not_eq_true', List.any_eq_false, decide_eq_true_eq]
    intro hcon
    exact hcon r (hl r hr) rfl
  cases store with
  | none =>
      have hnd := h rfl
      constructor
      · show dropDupKeepLast key (batch ++ batch) = batch
        rw [ddl_append, ddl_of_keys_nodup key batch hnd,
          hfilter_mem batch (fun r hr => hr)]
        rfl
      · exact hnd
  | some prev =>
      constructor
      · show dropDupKeepLast key (dropDupKeepLast key (prev ++ batch) ++ batch) =
          dropDupKeepLast key (prev ++ batch)
        rw [ddl_append key (dropDupKeepLast key (prev ++ batch)) batch,
          ddl_of_keys_nodup key _ (ddl_keys_nodup key (prev ++ batch)),
          ddl_append key prev batch, List.filter_append, List.filter_filter]
        have h1 : ∀ p : α → Bool, ∀ l : List α,
            (l.filter fun r => p r && p r) = l.filter p := by
          intro p l
          simp [Bool.and_self]
        rw [h1, hfilter_mem (dropDupKeepLast key batch)
          (fun r hr => ddl_subset key batch r hr)]
        simp
      · exact ddl_keys_nodup key (prev ++ batch)

/-- C3 amended witness: the amended idempotence applied at a concrete
existing store and batch. -/
theorem merge_idempotent_amended_witness :
    upsertRows Prod.fst
        (some (upsertRows Prod.fst (some [("a", 1)]) [("b", 2)])) [("b", 2)] =
      upsertRows Prod.fst (some [("a", (1 : Nat))]) [("b", 2)]
    ∧ ((upsertRows Prod.fst (some [("a", (1 : Nat))]) [("b", 2)]).map
        Prod.fst).Nodup :=
  merge_idempotent_amended Prod.fst (some [("a", 1)]) [("b", 2)]
    (by intro h; cases h)

/-- The timeseries dedup key `["instrument_id", "date"]`. -/
def tsKey (r : TsRow) : String × String := (r.instrument_id, r.date)

/-- A timeseries row used by the C4 analysis. -/
def tsRowA : TsRow :=
  { instrument_id := "id0", date := "2024-01-01",
    op := none, hi := none, lo := none, cl := none, vol := some ⟨1, 1⟩ }

/-- A second timeseries row with the same `(instrument_id, date)` key. -/
def tsRowB : TsRow :=
  { instrument_id := "id0", date := "2024-01-01",
    op := none, hi := none, lo := none, cl := none, vol := some ⟨2, 1⟩ }

/-- C4 counterexample: a first merge (store absent) of a batch holding two
rows with the same `(instrument_id, date)` key writes both verbatim, so the
resulting store violates the claimed uniqueness invariant. -/
theorem ts_uniqueness_cex :
    ¬ ((upsertRows tsKey (none : Option (List TsRow)) [tsRowA, tsRowB]).map
        tsKey).Nodup := by decide

/-- C4 amended: after a merge on a timeseries store keyed by
`(instrument_id, date)`, the store has at most one row per key provided the
batch itself has unique keys whenever the store does not yet exist; and when
the store exists, the row kept for each key is the last-seen one: a row is in
the merged store exactly when nothing later in old-rows-then-new-rows order
carries its key. -/
theorem ts_uniqueness_amended (store : Option (List TsRow)) (batch : List TsRow)
    (h : store = none → (batch.map tsKey).Nodup) :
    ((upsertRows tsKey store batch).map tsKey).Nodup
    ∧ (∀ prev, store = some prev →
        ∀ r, r ∈ upsertRows tsKey store batch ↔
          ∃ l₁ l₂, prev ++ batch = l₁ ++ r :: l₂ ∧ ∀ s ∈ l₂, tsKey s ≠ tsKey r) := by
  constructor
  · cases store with
    | none => exact h rfl
    | some prev => exact ddl_keys_nodup tsKey (prev ++ batch)
  · rintro prev rfl r
    exact mem_ddl_iff tsKey (prev ++ batch) r

/-- C4 amended witness: uniqueness after a concrete merge into an existing
store with a duplicate-key batch row. -/
theorem ts_uniqueness_amended_witness :
    ((upsertRows tsKey (some [tsRowA]) [tsRowB]).map tsKey).Nodup :=
  (ts_uniqueness_amended (some [tsRowA]) [tsRowB] (by intro h; cases h)).1

/-! ## Transformer inversion lemmas -/

theorem normDatesTs_ok_length (l l1 : List TsRow)
    (h : normDatesTs l = .ok l1) : l1.length = l.length := by
  induction l generalizing l1 with
  | nil =>
      simp only [normDatesTs, Except.ok.injEq] at h
      subst h; rfl
  | cons r rest ih =>
      simp only [normDatesTs] at h
      cases hd : to_iso_date r.date with
      | none => simp only [hd] at h; exact Except.noConfusion h
      | some d =>
          simp only [hd] at h
          cases hrest : normDatesTs rest with
          | error e => simp [hrest, Except.map] at h
          | ok l2 =>
              simp only [hrest, Except.map, Except.ok.injEq] at h
              subst h
              simp [ih l2 hrest]

theorem normDatesTs_ok_dates (l l1 : List TsRow)
    (h : normDatesTs l = .ok l1) :
    ∀ r ∈ l, (to_iso_date r.date).isSome = true := by
  induction l generalizing l1 with
  | nil => intro r hr; simp at hr
  | cons r0 rest ih =>
      intro r hr
      simp only [normDatesTs] at h
      cases hd : to_iso_date r0.date with
      | none => simp only [hd] at h; exact Except.noConfusion h
      | some d =>
          simp only [hd] at h
          cases hrest : normDatesTs rest with
          | error e => simp [hrest, Except.map] at h
          | ok l2 =>
              rcases List.mem_cons.mp hr with rfl | hr'
              · simp [hd]
              · exact ih l2 hrest r hr'

theorem normDatesC_ok_dates (l l1 : List CTsRow)
    (h : normDatesC l = .ok l1) :
    ∀ r ∈ l, ∀ s, r.date = some s → (to_iso_date s).isSome = true := by
  induction l generalizing l1 with
  | nil => intro r hr; simp at hr
  | cons r0 rest ih =>
      intro r hr s hs
      simp only [normDatesC] at h
      cases hd0 : r0.date with
      | none =>
          simp only [hd0] at h
          cases hrest : normDatesC rest with
          | error e => simp [hrest, Except.map] at h
          | ok l2 =>
              rcases List.mem_cons.mp hr with rfl | hr'
              · rw [hd0] at hs; cases hs
              · exact ih l2 hrest r hr' s hs
      | some s0 =>
          simp only [hd0] at h
          cases hds : to_iso_date s0 with
          | none => simp only [hds] at h; exact Except.noConfusion h
          | some d =>
              simp only [hds] at h
              cases hrest : normDatesC rest with
              | error e => simp [hrest, Except.map] at h
              | ok l2 =>
                  rcases List.mem_cons.mp hr with rfl | hr'
                  · rw [hd0] at hs
                    cases hs
                    simp [hds]
                  · exact ih l2 hrest r hr' s hs

theorem transform_stock_ok_inv (raw : StockRaw) (m : StockMetaRow)
    (ts : List TsRow) (heq : transform_stock raw = .ok (m, ts)) :
    ∃ md tsd, raw.metaData = some md ∧ raw.timeSeries = some tsd ∧
      ((tsd = [] ∧ ts = []) ∨
        ∃ ts1, normDatesTs (tsd.map (mkTsRow m.instrument_id)) = .ok ts1 ∧
          ts = ts1.filter tsAllPresent) := by
  obtain ⟨mdo, tso⟩ := raw
  cases mdo with
  | none => simp [transform_stock] at heq
  | some md =>
      cases tso with
      | none => simp [transform_stock] at heq
      | some tsd =>
          refine ⟨md, tsd, rfl, rfl, ?_⟩
          simp only [transform_stock] at heq
          cases hsym : lookupStr md "2. Symbol" with
          | none => simp [hsym] at heq
          | some sym =>
              simp only [hsym] at heq
              by_cases hemp :
                  (tsd.map (mkTsRow (generate_hash_id "Alpha Vantage" "stock" [sym]))).isEmpty
              · rw [if_pos hemp] at heq
                simp only [Except.ok.injEq, Prod.mk.injEq] at heq
                obtain ⟨hm, hts⟩ := heq
                have htsd : tsd = [] := by
                  have := List.isEmpty_iff.mp hemp
                  exact List.map_eq_nil_iff.mp this
                subst hm
                exact Or.inl ⟨htsd, by rw [← hts, htsd]; simp⟩
              · rw [if_neg hemp] at heq
                cases hnd : normDatesTs
                    (tsd.map (mkTsRow (generate_hash_id "Alpha Vantage" "stock" [sym]))) with
                | error e => simp [hnd, Except.map] at heq
                | ok ts1 =>
                    simp only [hnd, Except.map, Except.ok.injEq, Prod.mk.injEq] at heq
                    obtain ⟨hm, hts⟩ := heq
                    subst hm
                    exact Or.inr ⟨ts1, hnd, hts.symm⟩

theorem transform_forex_ok_inv (raw : ForexRaw) (m : FxMetaRow)
    (ts : List FxTsRow) (heq : transform_forex raw = .ok (m, ts)) :
    ts = [] ∨ ∃ ts1 : List FxTsRow, ts = ts1.filter fxAllPresent := by
  obtain ⟨mdo, tso⟩ := raw
  cases mdo with
  | none => simp [transform_forex] at heq
  | some md =>
      cases tso with
      | none => simp [transform_forex] at heq
      | some tsd =>
          simp only [transform_forex] at heq
          cases hf : lookupStr md "2. From Symbol" with
          | none => simp [hf] at heq
          | some f =>
              simp only [hf] at heq
              cases ht : lookupStr md "3. To Symbol" with
              | none => simp [ht] at heq
              | some t =>
                  simp only [ht] at heq
                  by_cases hemp : (tsd.map (mkFxRow
                      (generate_hash_id "Alpha Vantage" "forex" [f ++ "_" ++ t]))).isEmpty
                  · rw [if_pos hemp] at heq
                    simp only [Except.ok.injEq, Prod.mk.injEq] at heq
                    obtain ⟨hm, hts⟩ := heq
                    have := List.isEmpty_iff.mp hemp
                    exact Or.inl (by rw [← hts, this])
                  · rw [if_neg hemp] at heq
                    cases hnd : normDatesFx (tsd.map (mkFxRow
                        (generate_hash_id "Alpha Vantage" "forex" [f ++ "_" ++ t]))) with
                    | error e => simp [hnd, Except.map] at heq
                    | ok ts1 =>
                        simp only [hnd, Except.map, Except.ok.injEq, Prod.mk.injEq] at heq
                        obtain ⟨hm, hts⟩ := heq
                        exact Or.inr ⟨ts1, hts.symm⟩

theorem transform_commodity_ok_inv (raw : CommodityRaw) (m : CMetaRow)
    (ts : List CTsRow) (heq : transform_commodity raw = .ok (m, ts)) :
    (raw.data.getD [] = [] ∧ ts = []) ∨
      ∃ ts1, normDatesC ((raw.data.getD []).map fun p => (mkCPoint m.instrument_id p).1) =
          .ok ts1 ∧
        ts = ts1.filter fun r => r.date.isSome && r.price.isSome := by
  obtain ⟨name, unit, dat⟩ := raw
  simp only [transform_commodity] at heq
  by_cases hemp : ((dat.getD []).map fun p =>
      (mkCPoint (generate_hash_id "Alpha Vantage" "commodity" [name.getD ""]) p).1).isEmpty
  · rw [if_pos hemp] at heq
    simp only [Except.ok.injEq, Prod.mk.injEq] at heq
    obtain ⟨hm, hts⟩ := heq
    have hdat : dat.getD [] = [] := List.map_eq_nil_iff.mp (List.isEmpty_iff.mp hemp)
    exact Or.inl ⟨hdat, by rw [← hts, hdat]; simp⟩
  · rw [if_neg hemp] at heq
    cases hnd : normDatesC ((dat.getD []).map fun p =>
        (mkCPoint (generate_hash_id "Alpha Vantage" "commodity" [name.getD ""]) p).1) with
    | error e => simp [hnd, Except.map] at heq
    | ok ts1 =>
        simp only [hnd, Except.map, Except.ok.injEq, Prod.mk.injEq] at heq
        obtain ⟨hm, hts⟩ := heq
        subst hm
        exact Or.inr ⟨ts1, hnd, hts.symm⟩

theorem transform_crypto_ok_inv (raw : CryptoRaw) (m : CryptoMetaRow)
    (ts : List TsRow) (heq : transform_crypto raw = .ok (m, ts)) :
    m.currency_code = cryptoCurrencyCode (raw.metaData.getD []) ∧
      (ts = (raw.timeSeries.getD []).map (mkTsRow m.instrument_id) ∨
        normDatesTs ((raw.timeSeries.getD []).map (mkTsRow m.instrument_id)) = .ok ts) := by
  obtain ⟨mdo, tso⟩ := raw
  simp only [transform_crypto] at heq
  by_cases hemp : ((tso.getD []).map (mkTsRow (generate_hash_id "Alpha Vantage"
      "cryptocurrency" [(cryptoCurrencyCode (mdo.getD [])).getD "",
        (lookupStr (mdo.getD []) "4. Market Code").getD ""]))).isEmpty
  · rw [if_pos hemp] at heq
    simp only [Except.ok.injEq, Prod.mk.injEq] at heq
    obtain ⟨hm, hts⟩ := heq
    subst hm
    exact ⟨rfl, Or.inl hts.symm⟩
  · rw [if_neg hemp] at heq
    cases hnd : normDatesTs ((tso.getD []).map (mkTsRow (generate_hash_id "Alpha Vantage"
        "cryptocurrency" [(cryptoCurrencyCode (mdo.getD [])).getD "",
          (lookupStr (mdo.getD []) "4. Market Code").getD ""]))) with
    | error e => simp [hnd, Except.map] at heq
    | ok ts1 =>
        simp only [hnd, Except.map, Except.ok.injEq, Prod.mk.injEq] at heq
        obtain ⟨hm, hts⟩ := heq
        subst hm
        subst hts
        exact ⟨rfl, Or.inr hnd⟩

/-! ## Claims C5-C10 -/

/-- The crypto instruments row produced for a payload with no blocks at all. -/
def c5Meta : CryptoMetaRow :=
  { instrument_id := "6172b45a32ea473a32512d0cd66cc065", source := "Alpha Vantage",
    data_type := "cryptocurrency", currency_code := none, market_code := none,
    last_updated := none }

/-- C5 counterexample: the crypto transformer, fed a payload lacking both of
its required container blocks, does not fail at all — it succeeds and emits
an instrument row (with empty-basis hash and all-null fields), refuting the
claim that every per-domain transformer raises and emits nothing. -/
theorem missing_block_cex :
    transform_crypto { metaData := none, timeSeries := none } = .ok (c5Meta, []) := by
  rfl

/-- C5 amended: the stock, forex and exchange-rate transformers do fail on a
payload lacking a required top-level block, emitting no row; the crypto and
commodity transformers instead substitute empty defaults for missing
containers and succeed, emitting an instrument row and no timeseries rows. -/
theorem missing_block_amended :
    (∀ raw : StockRaw, raw.metaData = none ∨ raw.timeSeries = none →
        transform_stock raw =
          .error (.missingBlock "Missing required data blocks in raw data"))
    ∧ (∀ raw : ForexRaw, raw.metaData = none ∨ raw.timeSeries = none →
        transform_forex raw =
          .error (.missingBlock "Missing required data blocks in raw data"))
    ∧ transform_exchange_rate none =
        .error (.missingBlock "Missing 'Realtime Currency Exchange Rate' block in raw data")
    ∧ (∀ raw : CryptoRaw, raw.metaData = none → raw.timeSeries = none →
        ∃ m : CryptoMetaRow, transform_crypto raw = .ok (m, []))
    ∧ (∀ raw : CommodityRaw, raw.data = none →
        ∃ m : CMetaRow, transform_commodity raw = .ok (m, [])) := by
  refine ⟨?_, ?_, rfl, ?_, ?_⟩
  · intro raw h
    obtain ⟨mdo, tso⟩ := raw
    rcases h with h | h
    · change mdo = none at h
      subst h
      cases tso <;> rfl
    · change tso = none at h
      subst h
      cases mdo <;> rfl
  · intro raw h
    obtain ⟨mdo, tso⟩ := raw
    rcases h with h | h
    · change mdo = none at h
      subst h
      cases tso <;> rfl
    · change tso = none at h
      subst h
      cases mdo <;> rfl
  · intro raw h1 h2
    obtain ⟨mdo, tso⟩ := raw
    change mdo = none at h1
    change tso = none at h2
    subst h1
    subst h2
    exact ⟨_, rfl⟩
  · intro raw h
    obtain ⟨n, u, dat⟩ := raw
    change dat = none at h
    subst h
    exact ⟨_, rfl⟩

/-- C5 amended witness: the amended theorem applied at concrete block-less
payloads for each domain. -/
theorem missing_block_amended_witness :
    transform_stock { metaData := none, timeSeries := none } =
        .error (.missingBlock "Missing required data blocks in raw data")
    ∧ transform_forex { metaData := none, timeSeries := none } =
        .error (.missingBlock "Missing required data blocks in raw data")
    ∧ (∃ m : CryptoMetaRow,
        transform_crypto { metaData := none, timeSeries := none } = .ok (m, []))
    ∧ (∃ m : CMetaRow,
        transform_commodity { name := some "Oil", unit := some "USD", data := none } =
          .ok (m, [])) :=
  ⟨missing_block_amended.1 _ (Or.inl rfl), missing_block_amended.2.1 _ (Or.inl rfl),
   missing_block_amended.2.2.2.1 _ rfl rfl, missing_block_amended.2.2.2.2 _ rfl⟩

/-- A stock OHLCV entry with one uncoercible field and four coercible ones. -/
def c6Entry : OhlcvEntry :=
  { op := some "notanumber", hi := some "2", lo := some "1",
    cl := some "1.5", vol := some "100" }

/-- A stock payload whose single timeseries entry is `c6Entry`. -/
def c6Raw : StockRaw :=
  { metaData := some [("2. Symbol", "IBM"), ("3. Last Refreshed", "2024-02-29")],
    timeSeries := some [("2024-02-29", c6Entry)] }

/-- C6 counterexample: the single stock entry has four successfully coerced
value fields (e.g. close `"1.5"`) and one failing one (`"notanumber"`); the
claim says such a row is kept with the failed field null, but
`transform_stock`'s `dropna` (how=any over all value columns) drops it — the
emitted timeseries is empty. -/
theorem dropna_any_row_cex :
    (transform_stock c6Raw).map Prod.snd = .ok ([] : List TsRow)
    ∧ (to_float c6Entry.cl).1 = some ⟨15, 10⟩
    ∧ (to_float c6Entry.op).1 = none := by
  refine ⟨rfl, by decide, by decide⟩

/-- C6 amended: a stock or forex timeseries row survives only when all of its
value fields coerced successfully (a single failure drops the row); a
commodity row survives only with a non-null date and price; and the crypto
transformer never drops a row — every series entry is emitted, even with all
value fields null. -/
theorem null_row_drop_amended :
    (∀ raw m ts, transform_stock raw = .ok (m, ts) → ∀ r ∈ ts,
        r.op.isSome = true ∧ r.hi.isSome = true ∧ r.lo.isSome = true ∧
          r.cl.isSome = true ∧ r.vol.isSome = true)
    ∧ (∀ raw m ts, transform_forex raw = .ok (m, ts) → ∀ r ∈ ts,
        r.op.isSome = true ∧ r.hi.isSome = true ∧ r.lo.isSome = true ∧
          r.cl.isSome = true)
    ∧ (∀ raw m ts, transform_commodity raw = .ok (m, ts) → ∀ r ∈ ts,
        r.date.isSome = true ∧ r.price.isSome = true)
    ∧ (∀ raw m ts, transform_crypto raw = .ok (m, ts) →
        ts.length = (raw.timeSeries.getD []).length) := by
  refine ⟨?_, ?_, ?_, ?_⟩
  · intro raw m ts heq r hr
    obtain ⟨md, tsd, _, _, hsh⟩ := transform_stock_ok_inv raw m ts heq
    rcases hsh with ⟨_, rfl⟩ | ⟨ts1, _, rfl⟩
    · simp at hr
    · simpa [tsAllPresent, and_assoc] using (List.mem_filter.mp hr).2
  · intro raw m ts heq r hr
    rcases transform_forex_ok_inv raw m ts heq with rfl | ⟨ts1, rfl⟩
    · simp at hr
    · simpa [fxAllPresent, and_assoc] using (List.mem_filter.mp hr).2
  · intro raw m ts heq r hr
    rcases transform_commodity_ok_inv raw m ts heq with ⟨_, rfl⟩ | ⟨ts1, _, rfl⟩
    · simp at hr
    · simpa using (List.mem_filter.mp hr).2
  · intro raw m ts heq
    obtain ⟨_, hsh⟩ := transform_crypto_ok_inv raw m ts heq
    rcases hsh with rfl | hnd
    · simp
    · rw [normDatesTs_ok_length _ _ hnd, List.length_map]

/-- The commodity point of the C6 witness. -/
def c6wPoint : CPoint := { date := some "2024-01-31", value := some "2450.12" }

/-- The commodity payload of the C6 witness. -/
def c6wRaw : CommodityRaw :=
  { name := some "Global Price of Aluminum", unit := some "USD/Tonne",
    data := some [c6wPoint] }

/-- The instruments row emitted for `c6wRaw`. -/
def c6wMeta : CMetaRow :=
  { instrument_id := "a0e938006b2acb6dbe5262dbe9c498a9", source := "Alpha Vantage",
    data_type := "commodity", info := "Global Price of Aluminum", unit := "USD/Tonne" }

/-- The timeseries row emitted for `c6wRaw`. -/
def c6wRow : CTsRow :=
  { instrument_id := "a0e938006b2acb6dbe5262dbe9c498a9",
    date := some "2024-01-31", price := some ⟨245012, 100⟩ }

/-- C6 amended witness: the commodity clause applied at a concrete payload
whose surviving row has non-null date and price. -/
theorem null_row_drop_amended_witness :
    c6wRow.date.isSome = true ∧ c6wRow.price.isSome = true :=
  null_row_drop_amended.2.2.1 c6wRaw c6wMeta [c6wRow] (by rfl) c6wRow (by simp)

/-- A commodity payload with one parsable and one unparsable date. -/
def c7Raw : CommodityRaw :=
  { name := some "Copper", unit := some "USD",
    data := some [{ date := some "2024-01-31", value := some "2450.12" },
                  { date := some "notadate", value := some "2480.00" }] }

/-- C7 counterexample: on a payload with one unparsable date alongside a
parsable one, `pd.to_datetime` raises over the whole column, so the
transformer fails and emits nothing — the rows with good dates are lost too,
refuting the claim that only the bad-date row is dropped. -/
theorem unparsable_date_cex :
    transform_commodity c7Raw = .error (.badDate "notadate") := by
  rfl

/-- C7 amended: an unparsable (non-null) date anywhere in a file is fatal for
the whole file — the transformer raises and emits nothing (shown for the
commodity and stock transformers); only rows whose date is null/missing are
individually dropped (every emitted commodity row has a non-null date). -/
theorem unparsable_date_amended :
    (∀ raw : CommodityRaw, ∀ p s, p ∈ raw.data.getD [] → p.date = some s →
        to_iso_date s = none → ∃ e, transform_commodity raw = .error e)
    ∧ (∀ raw m ts, transform_commodity raw = .ok (m, ts) → ∀ r ∈ ts,
        r.date.isSome = true)
    ∧ (∀ raw : StockRaw, ∀ md tsd, raw.metaData = some md →
        raw.timeSeries = some tsd → ∀ k v, (k, v) ∈ tsd → to_iso_date k = none →
          ∃ e, transform_stock raw = .error e) := by
  refine ⟨?_, ?_, ?_⟩
  · intro raw p s hp hps hbad
    cases h : transform_commodity raw with
    | error e => exact ⟨e, rfl⟩
    | ok out =>
        exfalso
        obtain ⟨m, ts⟩ := out
        rcases transform_commodity_ok_inv raw m ts h with ⟨hdat, _⟩ | ⟨ts1, hnd, _⟩
        · rw [hdat] at hp
          simp at hp
        · have hmem : (mkCPoint m.instrument_id p).1 ∈
              (raw.data.getD []).map (fun q => (mkCPoint m.instrument_id q).1) :=
            List.mem_map_of_mem _ hp
          have hdate : (mkCPoint m.instrument_id p).1.date = some s := by
            simpa [mkCPoint] using hps
          have hsome := normDatesC_ok_dates _ _ hnd _ hmem s hdate
          rw [hbad] at hsome
          simp at hsome
  · intro raw m ts heq r hr
    rcases transform_commodity_ok_inv raw m ts heq with ⟨_, rfl⟩ | ⟨ts1, _, rfl⟩
    · simp at hr
    · exact ((Bool.and_eq_true _ _).mp (List.mem_filter.mp hr).2).1
  · intro raw md tsd hmd htsd k v hkv hbad
    cases h : transform_stock raw with
    | error e => exact ⟨e, rfl⟩
    | ok out =>
        exfalso
        obtain ⟨m, ts⟩ := out
        obtain ⟨md2, tsd2, hmd2, htsd2, hsh⟩ := transform_stock_ok_inv raw m ts h
        rw [htsd] at htsd2
        injection htsd2 with htsd2
        subst htsd2
        rcases hsh with ⟨rfl, _⟩ | ⟨ts1, hnd, _⟩
        · simp at hkv
        · have hmem : mkTsRow m.instrument_id (k, v) ∈
              tsd.map (mkTsRow m.instrument_id) := List.mem_map_of_mem _ hkv
          have hsome := normDatesTs_ok_dates _ _ hnd _ hmem
          have hdate : (mkTsRow m.instrument_id (k, v)).date = k := rfl
          rw [hdate, hbad] at hsome
          simp at hsome

/-- C7 amended witness: the commodity clause applied at the concrete payload
with an unparsable date. -/
theorem unparsable_date_amended_witness :
    ∃ e, transform_commodity c7Raw = .error e :=
  unparsable_date_amended.1 c7Raw ⟨some "notadate", some "2480.00"⟩ "notadate"
    (by decide) rfl rfl

/-- C8. A commodity data point whose value is the literal placeholder `"."`
is special-cased before generic numeric coercion: the emitted point has a
null price and no numeric-coercion warning is logged for it — whereas the
generic coercion `_to_float` applied to `"."` would have failed with a
warning. -/
theorem commodity_placeholder_dot :
    (∀ (h : String) (p : CPoint), p.value = some "." →
        (mkCPoint h p).1.price = none ∧ (mkCPoint h p).2 = false)
    ∧ to_float (some ".") = (none, true) := by
  refine ⟨?_, by decide⟩
  intro h p hv
  constructor <;> simp [mkCPoint, commodityPrice, pyStr, hv]

/-- C8 witness: the placeholder special case at a concrete point. -/
theorem commodity_placeholder_dot_witness :
    (mkCPoint "h0" { date := some "2024-01-31", value := some "." }).1.price = none ∧
      (mkCPoint "h0" { date := some "2024-01-31", value := some "." }).2 = false :=
  commodity_placeholder_dot.1 "h0" { date := some "2024-01-31", value := some "." } rfl

/-- A financial-statement row with 3 of 10 line items present (70% missing). -/
def finRowA : FinRow :=
  { date := "2024-01-01",
    items := [some ⟨1, 1⟩, some ⟨2, 1⟩, some ⟨3, 1⟩,
              none, none, none, none, none, none, none] }

/-- A complete financial-statement row (all 10 line items present). -/
def finRowB : FinRow :=
  { date := "2024-02-01",
    items := [some ⟨10, 1⟩, some ⟨20, 1⟩, some ⟨30, 1⟩, some ⟨40, 1⟩, some ⟨50, 1⟩,
              some ⟨60, 1⟩, some ⟨70, 1⟩, some ⟨80, 1⟩, some ⟨90, 1⟩, some ⟨100, 1⟩] }

/-- C9 counterexample: `finRowA` has 70% of its 10 line items missing, and in
the batch `[finRowA, finRowB]` every column mean is computable (`finRowB` is
complete); the claim says such a row is dropped entirely, but the code keeps
it: the `dropna` threshold is `int(0.4 * 13) = 5` non-null cells counted over
all 13 columns (the always-present `instrument_id`, `symbol`, `date` included),
and `finRowA` has 6. Its date survives into the cleaned output. -/
theorem financials_drop_cex :
    countSome finRowA.items = 3 ∧ finRowA.items.length = 10 ∧
      (finClean 10 [finRowA, finRowB]).map FinRow.date =
        ["2024-01-01", "2024-02-01"] := by
  decide

/-- C9 amended: a statement row is dropped exactly when its count of non-null
cells over all columns (the three non-null id/symbol/date cells plus its
non-null line items) falls below `int(0.4 * ncols)`; every surviving row is
emitted with its present values kept and its numeric gaps filled with the
column mean computed over the surviving rows of the batch. -/
theorem financials_drop_amended (w : Nat) (batch : List FinRow) :
    finClean w batch = (batch.filter (finKeep w)).map (finFill w batch)
    ∧ (finClean w batch).length = (batch.filter (finKeep w)).length
    ∧ (∀ r0 ∈ batch, finKeep w r0 = true →
        finFill w batch r0 ∈ finClean w batch)
    ∧ (∀ r ∈ finClean w batch, ∃ r0 ∈ batch, finKeep w r0 = true ∧
        r = finFill w batch r0) := by
  refine ⟨rfl, by simp [finClean], ?_, ?_⟩
  · intro r0 h0 hk
    show _ ∈ (batch.filter (finKeep w)).map (finFill w batch)
    exact List.mem_map_of_mem _ (List.mem_filter.mpr ⟨h0, hk⟩)
  · intro r hr
    have hr2 : r ∈ (batch.filter (finKeep w)).map (finFill w batch) := hr
    obtain ⟨r0, hr0, rfl⟩ := List.mem_map.mp hr2
    have h := List.mem_filter.mp hr0
    exact ⟨r0, h.1, h.2, rfl⟩

/-- C9 amended witness: the survival clause applied to the complete row of
the concrete batch. -/
theorem financials_drop_amended_witness :
    finFill 10 [finRowA, finRowB] finRowB ∈ finClean 10 [finRowA, finRowB] :=
  (financials_drop_amended 10 [finRowA, finRowB]).2.2.1 finRowB (by decide) (by decide)

/-- A crypto payload identified by the `"2. Digital Currency Code"` key. -/
def c10RawCode : CryptoRaw :=
  { metaData := some [("2. Digital Currency Code", "BTC"), ("4. Market Code", "USD")],
    timeSeries := none }

/-- The same currency identified only by `"3. Digital Currency Name"`. -/
def c10RawName : CryptoRaw :=
  { metaData := some [("3. Digital Currency Name", "Bitcoin"), ("4. Market Code", "USD")],
    timeSeries := none }

/-- The instrument id a crypto transform result carries (empty on error). -/
def cryptoResultId : Except TErr (CryptoMetaRow × List TsRow) → String
  | .ok (m, _) => m.instrument_id
  | .error _ => ""

/-- C10. When `"2. Digital Currency Code"` is absent, the crypto
`currency_code` falls back to `"3. Digital Currency Name"`; the emitted
instrument row carries exactly this fallback value (which also feeds the hash
discriminators), and two concrete payloads for the same currency differing
only in which of the two keys is present receive different `instrument_id`s. -/
theorem crypto_code_fallback :
    (∀ md, lookupStr md "2. Digital Currency Code" = none →
        cryptoCurrencyCode md = lookupStr md "3. Digital Currency Name")
    ∧ (∀ raw m ts, transform_crypto raw = .ok (m, ts) →
        m.currency_code = cryptoCurrencyCode (raw.metaData.getD []))
    ∧ cryptoResultId (transform_crypto c10RawCode) ≠
        cryptoResultId (transform_crypto c10RawName) := by
  refine ⟨?_, ?_, by decide⟩
  · intro md h
    simp [cryptoCurrencyCode, pyOr, h]
  · intro raw m ts heq
    exact (transform_crypto_ok_inv raw m ts heq).1

/-- C10 witness: the fallback clause applied at a concrete metadata block
lacking the code key. -/
theorem crypto_code_fallback_witness :
    cryptoCurrencyCode [("3. Digital Currency Name", "Bitcoin"), ("4. Market Code", "USD")] =
      lookupStr [("3. Digital Currency Name", "Bitcoin"), ("4. Market Code", "USD")]
        "3. Digital Currency Name" :=
  crypto_code_fallback.1 _ rfl

end Mononoke
